import Mathlib

/-!
Verification of `tools.go` (package imaging): Crop / CropCenter / CropTop,
Paste / PasteCenter and Overlay over a shallow embedding.

Machine integers (Go `int`) are embedded as `Int`; pixel channel bytes as
`Nat` (in range `[0,255]` by the buffer invariant); `float64` blend
arithmetic as exact rational arithmetic `ℚ`.  The one place where IEEE
arithmetic is not exact-rational is a division whose divisor may be zero
(`coef1 /= coefSum` in `Overlay`): there `0/0` is NaN and the subsequent
`uint8(...)` conversion is implementation-defined, which the embedding
represents by `Option`: `none` means "NaN / implementation-defined byte".
-/

namespace Imaging

/-- Go stdlib `image.Point`: a 2-D integer point. -/
structure Point where
  x : Int
  y : Int
deriving DecidableEq

/-- Go stdlib `Point.Add`. -/
def Point.add (p q : Point) : Point := ⟨p.x + q.x, p.y + q.y⟩

/-- Go stdlib `Point.Sub`. -/
def Point.sub (p q : Point) : Point := ⟨p.x - q.x, p.y - q.y⟩

/-- Go stdlib `image.Rectangle`: min and max corners, half-open. -/
structure Rect where
  min : Point
  max : Point
deriving DecidableEq

/-- Go stdlib `Rectangle.Dx`. -/
def Rect.dx (r : Rect) : Int := r.max.x - r.min.x

/-- Go stdlib `Rectangle.Dy`. -/
def Rect.dy (r : Rect) : Int := r.max.y - r.min.y

/-- Go stdlib `Rectangle.Size`. -/
def Rect.size (r : Rect) : Point := ⟨r.dx, r.dy⟩

/-- Go stdlib `Rectangle.Sub`: translate by `-p`. -/
def Rect.sub (r : Rect) (p : Point) : Rect := ⟨r.min.sub p, r.max.sub p⟩

/-- Go stdlib `Rectangle.Empty`: `r.Min.X >= r.Max.X || r.Min.Y >= r.Max.Y`. -/
def Rect.isEmpty (r : Rect) : Prop := r.max.x ≤ r.min.x ∨ r.max.y ≤ r.min.y

instance (r : Rect) : Decidable r.isEmpty :=
  inferInstanceAs (Decidable (r.max.x ≤ r.min.x ∨ r.max.y ≤ r.min.y))

/-- Go stdlib `image.ZR`, the zero rectangle. -/
def zeroRect : Rect := ⟨⟨0, 0⟩, ⟨0, 0⟩⟩

/-- Go stdlib `Rectangle.Intersect`: componentwise max of mins and min of
maxes; the zero rectangle when that is empty. -/
def Rect.intersect (r s : Rect) : Rect :=
  let t : Rect := ⟨⟨Max.max r.min.x s.min.x, Max.max r.min.y s.min.y⟩,
                   ⟨Min.min r.max.x s.max.x, Min.min r.max.y s.max.y⟩⟩
  if t.isEmpty then zeroRect else t

/-- Go stdlib `Rectangle.Overlaps`. -/
def Rect.overlaps (r s : Rect) : Prop :=
  ¬r.isEmpty ∧ ¬s.isEmpty ∧
    r.min.x < s.max.x ∧ s.min.x < r.max.x ∧ r.min.y < s.max.y ∧ s.min.y < r.max.y

instance (r s : Rect) : Decidable (r.overlaps s) :=
  inferInstanceAs (Decidable (¬r.isEmpty ∧ ¬s.isEmpty ∧
    r.min.x < s.max.x ∧ s.min.x < r.max.x ∧ r.min.y < s.max.y ∧ s.min.y < r.max.y))

/-- Go stdlib `Point.In(r)` for the point `(x, y)`. -/
def inRect (r : Rect) (x y : Int) : Prop :=
  r.min.x ≤ x ∧ x < r.max.x ∧ r.min.y ≤ y ∧ y < r.max.y

instance (r : Rect) (x y : Int) : Decidable (inRect r x y) :=
  inferInstanceAs (Decidable (r.min.x ≤ x ∧ x < r.max.x ∧ r.min.y ≤ y ∧ y < r.max.y))

/-- Go stdlib `image.Rect(x0, y0, x1, y1)`: swaps the coordinates when given
in the wrong order. -/
def goRect (x0 y0 x1 y1 : Int) : Rect :=
  let px := if x0 > x1 then (x1, x0) else (x0, x1)
  let py := if y0 > y1 then (y1, y0) else (y0, y1)
  ⟨⟨px.1, py.1⟩, ⟨px.2, py.2⟩⟩

/-- Go integer division truncates toward zero. -/
def goDiv (a b : Int) : Int := Int.tdiv a b

/-- One NRGBA pixel: non-premultiplied 8-bit channels (range `[0,255]` by the
buffer invariant of the spec, not enforced by the type). -/
structure Pixel where
  r : Nat
  g : Nat
  b : Nat
  a : Nat
deriving DecidableEq

/-- An image value as consumed by the Go functions (`image.Image` restricted
to the RGBA8 pixel model of the spec): a bounds rectangle plus a total pixel
lookup in absolute coordinates (only coordinates inside `rect` are
meaningful). -/
structure GoImage where
  rect : Rect
  pixAt : Int → Int → Pixel

/-- Modelled from the spec: the repository's `Clone` helper is not in
`tools.go`; per §6/§3 `clone(image) -> PixelBuffer` produces an independent,
zero-origin copy of an image's pixels. -/
def clone (g : GoImage) : GoImage :=
  { rect := ⟨⟨0, 0⟩, ⟨g.rect.dx, g.rect.dy⟩⟩
    pixAt := fun x y => g.pixAt (x + g.rect.min.x) (y + g.rect.min.y) }

/-- Modelled from the spec: the repository's `toNRGBA` helper is not in
`tools.go`; per §6 `toBuffer(genericImage) -> PixelBuffer` normalizes any
image to the zero-origin RGBA8 buffer model.  On the pixel-level model it
coincides with `clone`. -/
def toNRGBA (g : GoImage) : GoImage := clone g

/-- Go stdlib `(*image.NRGBA).SubImage`: bounds clipped to the intersection
with the image bounds, sharing pixel storage (absolute coordinates).  When
the intersection is empty Go returns the empty `&image.NRGBA{}`, whose
bounds coincide with the zero rectangle produced by `Rect.intersect`. -/
def subImage (g : GoImage) (r : Rect) : GoImage :=
  { rect := r.intersect g.rect, pixAt := g.pixAt }

/-- `Crop`, tools.go lines 10-15. -/
def Crop (img : GoImage) (rect : Rect) : GoImage :=
  let src := toNRGBA img
  let srcRect := rect.sub img.rect.min
  clone (subImage src srcRect)

/-- The rectangle computed by `CropCenter`, tools.go lines 20-34. -/
def cropCenterRect (img : GoImage) (width height : Int) : Rect :=
  let cropW := width
  let cropH := height
  let srcBounds := img.rect
  let srcW := srcBounds.dx
  let srcH := srcBounds.dy
  let srcMinX := srcBounds.min.x
  let srcMinY := srcBounds.min.y
  let centerX := srcMinX + goDiv srcW 2
  let centerY := srcMinY + goDiv srcH 2
  let x0 := centerX - goDiv cropW 2
  let y0 := centerY - goDiv cropH 2
  goRect x0 y0 (x0 + cropW) (y0 + cropH)

/-- `CropCenter`, tools.go lines 19-37. -/
def CropCenter (img : GoImage) (width height : Int) : GoImage :=
  Crop img (cropCenterRect img width height)

/-- The rectangle computed by `CropTop`, tools.go lines 40-51.  Note line 49:
`y0 := 0`, not `y0 := srcMinY`. -/
def cropTopRect (img : GoImage) (width height : Int) : Rect :=
  let cropW := width
  let cropH := height
  let srcBounds := img.rect
  let srcW := srcBounds.dx
  let srcMinX := srcBounds.min.x
  let centerX := srcMinX + goDiv srcW 2
  let x0 := centerX - goDiv cropW 2
  let y0 : Int := 0
  goRect x0 y0 (x0 + cropW) (y0 + cropH)

/-- `CropTop`, tools.go lines 39-54. -/
def CropTop (img : GoImage) (width height : Int) : GoImage :=
  Crop img (cropTopRect img width height)

/-- The paste rectangle of `Paste`/`Overlay`, tools.go lines 60-62 and
123-125: `startPt := pos.Sub(background.Bounds().Min)`;
`endPt := startPt.Add(src.Bounds().Size())`. -/
def pasteRect (background img : GoImage) (pos : Point) : Rect :=
  let startPt := pos.sub background.rect.min
  ⟨startPt, startPt.add (toNRGBA img).rect.size⟩

/-- `Paste`, tools.go lines 57-87.  The row loop (lines 79-83) copies, for
each row `y` of the intersection, the destination bytes at offset
`PixOffset(intersectBounds.Min.X, y)` from the source bytes at offset
`PixOffset(srcStartX, srcStartY + row)` with
`srcStartX = intersectBounds.Min.X - pasteBounds.Min.X` (lines 70-71); at
the pixel level that writes `src` pixel `(x - pasteBounds.Min.X,
y - pasteBounds.Min.Y)` to destination pixel `(x, y)` for every `(x, y)` in
the intersection, each destination pixel exactly once. -/
def Paste (background img : GoImage) (pos : Point) : GoImage :=
  let src := toNRGBA img
  let dst := clone background
  let pb := pasteRect background img pos
  if dst.rect.overlaps pb then
    { rect := dst.rect
      pixAt := fun x y =>
        if inRect (dst.rect.intersect pb) x y then
          src.pixAt (x - pb.min.x) (y - pb.min.y)
        else dst.pixAt x y }
  else dst

/-- `PasteCenter`, tools.go lines 90-104. -/
def PasteCenter (background img : GoImage) : GoImage :=
  let bgBounds := background.rect
  let centerX := bgBounds.min.x + goDiv bgBounds.dx 2
  let centerY := bgBounds.min.y + goDiv bgBounds.dy 2
  Paste background img ⟨centerX - goDiv img.rect.dx 2, centerY - goDiv img.rect.dy 2⟩

/-- A pixel of an `Overlay` result: the color channels of a blended pixel
may be NaN-derived (see `blendPix`), hence `Option`; the alpha channel
(line 150) is always a well-defined finite computation. -/
structure OPixel where
  r : Option Nat
  g : Option Nat
  b : Option Nat
  a : Nat
deriving DecidableEq

/-- Injection of an untouched pixel into `OPixel`. -/
def Pixel.toO (p : Pixel) : OPixel := ⟨some p.r, some p.g, some p.b, p.a⟩

/-- An image whose pixels are `OPixel`. -/
structure OImage where
  rect : Rect
  pixAt : Int → Int → OPixel

/-- An unblended image viewed as an `OImage`. -/
def GoImage.toO (g : GoImage) : OImage :=
  ⟨g.rect, fun x y => (g.pixAt x y).toO⟩

/-- Go `uint8(f)` for a finite `f`: conversion discards the fractional part,
truncating toward zero.  All finite values converted in `tools.go` lie in
`[0, 255]`, where this equals the floor. -/
def uint8of (q : ℚ) : Nat := (Rat.floor q).toNat

/-- The per-pixel blend of `Overlay`, tools.go lines 138-150.  `coef1` and
`coef2` are divided by `coefSum` unconditionally (lines 144-145); when
`coefSum = 0` (only possible as `0/0`, since both coefficients are
nonnegative for in-range inputs) IEEE arithmetic yields NaN and the `uint8`
conversions on lines 147-149 are implementation-defined, modelled as
`none`. -/
def blendPix (dstP srcP : Pixel) (opacity : ℚ) : OPixel :=
  let a1 : ℚ := dstP.a
  let a2 : ℚ := srcP.a
  let coef2 := opacity * a2 / 255
  let coef1 := (1 - coef2) * a1 / 255
  let coefSum := coef1 + coef2
  let alpha := uint8of (min (a1 + a2 * opacity * (255 - a1) / 255) 255)
  if coefSum = 0 then ⟨none, none, none, alpha⟩
  else
    let k1 := coef1 / coefSum
    let k2 := coef2 / coefSum
    ⟨some (uint8of ((dstP.r : ℚ) * k1 + (srcP.r : ℚ) * k2)),
     some (uint8of ((dstP.g : ℚ) * k1 + (srcP.g : ℚ) * k2)),
     some (uint8of ((dstP.b : ℚ) * k1 + (srcP.b : ℚ) * k2)),
     alpha⟩

/-- Body of `Overlay` after the opacity clamp, tools.go lines 121-156. -/
def overlayWith (background img : GoImage) (pos : Point) (opacity : ℚ) : OImage :=
  let src := toNRGBA img
  let dst := clone background
  let pb := pasteRect background img pos
  if dst.rect.overlaps pb then
    { rect := dst.rect
      pixAt := fun x y =>
        if inRect (dst.rect.intersect pb) x y then
          blendPix (dst.pixAt x y) (src.pixAt (x - pb.min.x) (y - pb.min.y)) opacity
        else (dst.pixAt x y).toO }
  else dst.toO

/-- `Overlay`, tools.go lines 118-156; line 119 clamps the opacity to
`[0, 1]` before anything else. -/
def Overlay (background img : GoImage) (pos : Point) (opacity : ℚ) : OImage :=
  overlayWith background img pos (min (max opacity 0) 1)

/-! ### Geometry lemmas -/

/-- A point lies in a Go intersection exactly when it lies in both operands
(the zero-rectangle fallback has no members). -/
lemma inRect_intersect_iff (r s : Rect) (x y : Int) :
    inRect (r.intersect s) x y ↔ (inRect r x y ∧ inRect s x y) := by
  unfold Rect.intersect
  dsimp only
  split
  · next hemp =>
    unfold Rect.isEmpty at hemp
    unfold inRect zeroRect
    dsimp only at hemp ⊢
    omega
  · next hemp =>
    unfold Rect.isEmpty at hemp
    unfold inRect
    dsimp only at hemp ⊢
    omega

/-- A nonempty membership in an intersection forces the two rectangles to
overlap in the Go sense. -/
lemma overlaps_of_inRect_intersect {r s : Rect} {x y : Int}
    (h : inRect (r.intersect s) x y) : r.overlaps s := by
  have h2 := (inRect_intersect_iff r s x y).mp h
  unfold inRect at h2
  unfold Rect.overlaps Rect.isEmpty
  omega

/-- A point of the paste rectangle, translated back by the paste offset and
forward by the overlay image's own origin, lies in the overlay image's
bounds. -/
lemma inRect_src_of_pasteRect (background img : GoImage) (pos : Point) (x y : Int)
    (h : inRect (pasteRect background img pos) x y) :
    inRect img.rect (x - (pasteRect background img pos).min.x + img.rect.min.x)
      (y - (pasteRect background img pos).min.y + img.rect.min.y) := by
  unfold pasteRect toNRGBA clone Rect.size Rect.dx Rect.dy Point.add Point.sub inRect at h ⊢
  dsimp only at h ⊢
  omega

/-! ### uint8 conversion lemmas -/

/-- `Rat.floor` agrees with the `FloorRing` floor on `ℚ`. -/
lemma ratFloor_eq_floor (q : ℚ) : Rat.floor q = Int.floor q := by
  rw [Rat.floor_def', Rat.floor_def]

/-- `uint8of` on an exact byte value. -/
lemma uint8of_natCast (n : Nat) : uint8of (n : ℚ) = n := by
  unfold uint8of
  rw [ratFloor_eq_floor, Int.floor_natCast, Int.toNat_natCast]

/-- Characterization of `uint8of` by the enclosing unit interval. -/
lemma uint8of_eq {q : ℚ} {n : Nat} (h1 : (n : ℚ) ≤ q) (h2 : q < (n : ℚ) + 1) :
    uint8of q = n := by
  unfold uint8of
  rw [ratFloor_eq_floor]
  have h : Int.floor q = (n : ℤ) := by
    rw [Int.floor_eq_iff]
    constructor
    · exact_mod_cast h1
    · push_cast
      exact h2
  rw [h, Int.toNat_natCast]

/-- `uint8of` dominates any byte below its argument. -/
lemma le_uint8of {n : Nat} {q : ℚ} (h : (n : ℚ) ≤ q) : n ≤ uint8of q := by
  unfold uint8of
  rw [ratFloor_eq_floor]
  have hlo : (n : ℤ) ≤ Int.floor q := Int.le_floor.mpr (by exact_mod_cast h)
  omega

/-! ### Blend lemmas -/

/-- The alpha channel of a blended pixel, independently of the NaN case on
the color channels. -/
lemma blendPix_a (dstP srcP : Pixel) (opacity : ℚ) :
    (blendPix dstP srcP opacity).a =
      uint8of (min ((dstP.a : ℚ) + (srcP.a : ℚ) * opacity * (255 - (dstP.a : ℚ)) / 255) 255) := by
  unfold blendPix
  dsimp only
  split <;> rfl

/-- `uint8of` at the full byte. -/
lemma uint8of_255 : uint8of 255 = 255 := uint8of_eq (by norm_num) (by norm_num)

/-- Blending at opacity 0 over a pixel with nonzero in-range alpha is the
identity on all four channels. -/
lemma blendPix_opacity_zero (dstP srcP : Pixel) (h1 : dstP.a ≠ 0) (h2 : dstP.a ≤ 255) :
    blendPix dstP srcP 0 = dstP.toO := by
  have ha : ((dstP.a : ℚ)) ≠ 0 := Nat.cast_ne_zero.mpr h1
  have ha255 : ((dstP.a : ℚ)) ≤ 255 := by exact_mod_cast h2
  unfold blendPix
  dsimp only
  have hsum : (1 - 0 * (srcP.a : ℚ) / 255) * (dstP.a : ℚ) / 255 + 0 * (srcP.a : ℚ) / 255
      = (dstP.a : ℚ) / 255 := by ring
  rw [hsum]
  rw [if_neg (div_ne_zero ha (by norm_num))]
  have hc1 : (1 - 0 * (srcP.a : ℚ) / 255) * (dstP.a : ℚ) / 255 = (dstP.a : ℚ) / 255 := by ring
  rw [hc1]
  have hc2 : 0 * (srcP.a : ℚ) / 255 = 0 := by ring
  rw [hc2]
  rw [div_self (div_ne_zero ha (by norm_num)), zero_div]
  simp only [mul_one, mul_zero, add_zero, zero_mul, zero_div]
  rw [min_eq_left ha255]
  simp only [uint8of_natCast]
  rfl

/-- Blending a fully opaque source pixel at opacity 1 yields the source
color channels and alpha 255. -/
lemma blendPix_opacity_one (dstP srcP : Pixel) (h : srcP.a = 255) :
    blendPix dstP srcP 1 = ⟨some srcP.r, some srcP.g, some srcP.b, 255⟩ := by
  unfold blendPix
  dsimp only
  rw [h]
  have hsum : (1 - 1 * ((255 : ℕ) : ℚ) / 255) * (dstP.a : ℚ) / 255 + 1 * ((255 : ℕ) : ℚ) / 255
      = 1 := by push_cast; ring
  rw [hsum]
  rw [if_neg one_ne_zero]
  have hc1 : (1 - 1 * ((255 : ℕ) : ℚ) / 255) * (dstP.a : ℚ) / 255 = 0 := by push_cast; ring
  rw [hc1]
  have hc2 : (1 : ℚ) * ((255 : ℕ) : ℚ) / 255 = 1 := by push_cast; ring
  rw [hc2]
  rw [zero_div, div_one]
  simp only [mul_zero, zero_add, mul_one]
  have halpha : (dstP.a : ℚ) + ((255 : ℕ) : ℚ) * (255 - (dstP.a : ℚ)) / 255 = 255 := by
    push_cast; ring
  rw [halpha, min_self, uint8of_255]
  simp only [uint8of_natCast]

/-- The blended alpha never falls below the destination alpha, for clamped
opacities and in-range destination alpha. -/
lemma blendPix_alpha_ge (dstP srcP : Pixel) (opacity : ℚ) (h0 : 0 ≤ opacity)
    (h2 : dstP.a ≤ 255) : dstP.a ≤ (blendPix dstP srcP opacity).a := by
  rw [blendPix_a]
  apply le_uint8of
  have ha255 : ((dstP.a : ℚ)) ≤ 255 := by exact_mod_cast h2
  have ht : 0 ≤ (srcP.a : ℚ) * opacity * (255 - (dstP.a : ℚ)) / 255 := by
    apply div_nonneg _ (by norm_num)
    apply mul_nonneg (mul_nonneg (Nat.cast_nonneg _) h0)
    linarith
  exact le_min (by linarith) ha255

/-! ### Overlay pixel lemmas -/

/-- Outside the computed intersection an `Overlay` pixel is the clone's. -/
lemma overlay_pixAt_out (background img : GoImage) (pos : Point) (opacity : ℚ) (x y : Int)
    (h : ¬ inRect ((clone background).rect.intersect (pasteRect background img pos)) x y) :
    (Overlay background img pos opacity).pixAt x y = ((clone background).pixAt x y).toO := by
  unfold Overlay overlayWith
  dsimp only
  by_cases hov : (clone background).rect.overlaps (pasteRect background img pos)
  · rw [if_pos hov]
    dsimp only
    rw [if_neg h]
  · rw [if_neg hov]
    rfl

/-- Inside the computed intersection an `Overlay` pixel is the blend of the
clone pixel with the corresponding source pixel, at clamped opacity. -/
lemma overlay_pixAt_blend (background img : GoImage) (pos : Point) (opacity : ℚ) (x y : Int)
    (h : inRect ((clone background).rect.intersect (pasteRect background img pos)) x y) :
    (Overlay background img pos opacity).pixAt x y =
      blendPix ((clone background).pixAt x y)
        ((toNRGBA img).pixAt (x - (pasteRect background img pos).min.x)
          (y - (pasteRect background img pos).min.y))
        (min (max opacity 0) 1) := by
  have hov := overlaps_of_inRect_intersect h
  unfold Overlay overlayWith
  dsimp only
  rw [if_pos hov]
  dsimp only
  rw [if_pos h]

/-- Clamping 1 gives 1. -/
lemma clamp_one : min (max (1 : ℚ) 0) 1 = 1 := by
  rw [max_eq_left (by norm_num : (0 : ℚ) ≤ 1), min_self]

/-- Clamping 0 gives 0. -/
lemma clamp_zero : min (max (0 : ℚ) 0) 1 = 0 := by
  rw [max_self, min_eq_left (by norm_num : (0 : ℚ) ≤ 1)]

/-- Clamping one half gives one half. -/
lemma clamp_half : min (max ((1 : ℚ) / 2) 0) 1 = 1 / 2 := by
  rw [max_eq_left (by norm_num : (0 : ℚ) ≤ 1 / 2), min_eq_left (by norm_num : (1 : ℚ) / 2 ≤ 1)]

/-! ### Concrete images used in counterexamples and witnesses -/

/-- A source image whose bounds do not start at `y = 0`. -/
def offsetImg : GoImage := ⟨⟨⟨0, 2⟩, ⟨1, 5⟩⟩, fun _ _ => ⟨0, 0, 0, 0⟩⟩

/-- A 1×1 witness background. -/
def wbg6 : GoImage := ⟨⟨⟨0, 0⟩, ⟨1, 1⟩⟩, fun _ _ => ⟨10, 20, 30, 40⟩⟩

/-- A 1×1 fully opaque witness overlay. -/
def wfg6 : GoImage := ⟨⟨⟨0, 0⟩, ⟨1, 1⟩⟩, fun _ _ => ⟨50, 60, 70, 255⟩⟩

/-- A 2×2 witness background. -/
def wbg4 : GoImage := ⟨⟨⟨0, 0⟩, ⟨2, 2⟩⟩, fun _ _ => ⟨1, 2, 3, 4⟩⟩

/-- A 1×1 witness overlay. -/
def wfg4 : GoImage := ⟨⟨⟨0, 0⟩, ⟨1, 1⟩⟩, fun _ _ => ⟨9, 8, 7, 6⟩⟩

/-! ### Claim theorems -/

/-- C4: inside the computed intersection every `Paste` result pixel equals
the overlay image's pixel (all four channels, bit-for-bit, regardless of the
background), and every pixel outside the intersection keeps the background
clone's value. -/
theorem paste_spec (background img : GoImage) (pos : Point) (x y : Int) :
    (inRect ((clone background).rect.intersect (pasteRect background img pos)) x y →
      (Paste background img pos).pixAt x y =
        img.pixAt (x - (pasteRect background img pos).min.x + img.rect.min.x)
          (y - (pasteRect background img pos).min.y + img.rect.min.y))
    ∧ (¬ inRect ((clone background).rect.intersect (pasteRect background img pos)) x y →
      (Paste background img pos).pixAt x y = (clone background).pixAt x y) := by
  constructor
  · intro h
    have hov := overlaps_of_inRect_intersect h
    unfold Paste
    dsimp only
    rw [if_pos hov]
    dsimp only
    rw [if_pos h]
    rfl
  · intro h
    unfold Paste
    dsimp only
    by_cases hov : (clone background).rect.overlaps (pasteRect background img pos)
    · rw [if_pos hov]
      dsimp only
      rw [if_neg h]
    · rw [if_neg hov]

/-- Witness for C4 at a concrete background, overlay and point. -/
theorem paste_spec_witness :
    (Paste wbg4 wfg4 ⟨0, 0⟩).pixAt 0 0 =
      wfg4.pixAt (0 - (pasteRect wbg4 wfg4 ⟨0, 0⟩).min.x + wfg4.rect.min.x)
        (0 - (pasteRect wbg4 wfg4 ⟨0, 0⟩).min.y + wfg4.rect.min.y)
    ∧ (Paste wbg4 wfg4 ⟨0, 0⟩).pixAt 1 1 = (clone wbg4).pixAt 1 1 :=
  ⟨(paste_spec wbg4 wfg4 ⟨0, 0⟩ 0 0).1 (by decide),
   (paste_spec wbg4 wfg4 ⟨0, 0⟩ 1 1).2 (by decide)⟩

/-- C5: when the translated paste rectangle does not overlap the destination
bounds, `Paste` and `Overlay` both return the unmodified background clone. -/
theorem paste_overlay_noop (background img : GoImage) (pos : Point) (opacity : ℚ)
    (h : ¬ (clone background).rect.overlaps (pasteRect background img pos)) :
    Paste background img pos = clone background
      ∧ Overlay background img pos opacity = (clone background).toO := by
  constructor
  · unfold Paste
    dsimp only
    rw [if_neg h]
  · unfold Overlay overlayWith
    dsimp only
    rw [if_neg h]

/-- Witness for C5 at a concrete non-overlapping placement. -/
theorem paste_overlay_noop_witness :
    Paste wbg6 wfg6 ⟨5, 5⟩ = clone wbg6
      ∧ Overlay wbg6 wfg6 ⟨5, 5⟩ (3 / 4) = (clone wbg6).toO :=
  paste_overlay_noop wbg6 wfg6 ⟨5, 5⟩ (3 / 4) (by decide)

/-- C7 counterexample: for a source whose bounds minimum Y is 2, the crop
rectangle computed by `CropTop` has `y0 = 0`, not the source bounds'
minimum Y as claimed. -/
theorem cropTop_min_y_counterexample :
    (cropTopRect offsetImg 1 1).min.y ≠ offsetImg.rect.min.y := by decide

/-- C7 amended: `CropTop` anchors its crop rectangle at the absolute
`y0 = 0` (the source's top edge only when the source bounds' minimum Y is
0), horizontally centers it on the source's horizontal center, and
delegates to `Crop`. -/
theorem cropTop_rect_spec (img : GoImage) (width height : Int) :
    cropTopRect img width height =
      goRect (img.rect.min.x + goDiv img.rect.dx 2 - goDiv width 2) 0
        (img.rect.min.x + goDiv img.rect.dx 2 - goDiv width 2 + width) height
    ∧ CropTop img width height = Crop img (cropTopRect img width height) := by
  constructor
  · unfold cropTopRect
    dsimp only
    rw [zero_add]
  · rfl

/-- C8: `Overlay` silently clamps its opacity to `[0, 1]`: any opacity gives
the same result as its clamped value. -/
theorem overlay_clamps_opacity (background img : GoImage) (pos : Point) (opacity : ℚ) :
    Overlay background img pos opacity
      = Overlay background img pos (min (max opacity 0) 1) := by
  unfold Overlay
  have h0 : (0 : ℚ) ≤ min (max opacity 0) 1 := le_min (le_max_right opacity 0) zero_le_one
  have h1 : min (max opacity 0) 1 ≤ 1 := min_le_right _ _
  rw [max_eq_left h0, min_eq_left h1]

/-- C9: `Crop` clips to the overlap: the result buffer's bounds are exactly
the size of the intersection of the translated crop rectangle with the
source buffer's bounds (never the requested size padded with zero pixels),
and its pixels are the source buffer's pixels of that intersection. -/
theorem crop_clips_to_intersection (img : GoImage) (rect : Rect) :
    (Crop img rect).rect =
      ⟨⟨0, 0⟩, ⟨((rect.sub img.rect.min).intersect (toNRGBA img).rect).dx,
        ((rect.sub img.rect.min).intersect (toNRGBA img).rect).dy⟩⟩
    ∧ ∀ x y : Int, (Crop img rect).pixAt x y =
        (toNRGBA img).pixAt
          (x + ((rect.sub img.rect.min).intersect (toNRGBA img).rect).min.x)
          (y + ((rect.sub img.rect.min).intersect (toNRGBA img).rect).min.y) :=
  ⟨rfl, fun _ _ => rfl⟩

/-- C10: the alpha channel of every `Overlay` result pixel is at least the
corresponding background clone pixel's alpha (in-range alpha assumed, per
the buffer invariant); pixels outside the intersection keep it exactly. -/
theorem overlay_alpha_monotone (background img : GoImage) (pos : Point) (opacity : ℚ)
    (x y : Int) (hv : ((clone background).pixAt x y).a ≤ 255) :
    ((clone background).pixAt x y).a ≤ ((Overlay background img pos opacity).pixAt x y).a := by
  by_cases hin : inRect ((clone background).rect.intersect (pasteRect background img pos)) x y
  · rw [overlay_pixAt_blend background img pos opacity x y hin]
    exact blendPix_alpha_ge _ _ _ (le_min (le_max_right opacity 0) zero_le_one) hv
  · rw [overlay_pixAt_out background img pos opacity x y hin]
    exact le_refl _

/-- Witness for C10 at a concrete background, overlay, point and opacity. -/
theorem overlay_alpha_monotone_witness :
    ((clone wbg6).pixAt 0 0).a ≤ ((Overlay wbg6 wfg6 ⟨0, 0⟩ (1 / 2)).pixAt 0 0).a :=
  overlay_alpha_monotone wbg6 wfg6 ⟨0, 0⟩ (1 / 2) 0 0 (by decide)

/-- A 1×1 background whose only pixel has nonzero color but alpha 0. -/
def clearBG : GoImage := ⟨⟨⟨0, 0⟩, ⟨1, 1⟩⟩, fun _ _ => ⟨200, 10, 30, 0⟩⟩

/-- A 1×1 overlay whose only pixel has alpha 0. -/
def clearFG : GoImage := ⟨⟨⟨0, 0⟩, ⟨1, 1⟩⟩, fun _ _ => ⟨50, 60, 70, 0⟩⟩

/-- C2 counterexample: with opacity 0 over a background pixel whose alpha is
0, `coefSum = 0`, the unguarded division yields NaN color channels and the
result pixel is not the background clone's pixel. -/
theorem overlay_opacity_zero_counterexample :
    (Overlay clearBG clearFG ⟨0, 0⟩ 0).pixAt 0 0 ≠ ((clone clearBG).pixAt 0 0).toO := by
  rw [overlay_pixAt_blend clearBG clearFG ⟨0, 0⟩ 0 0 0 (by decide), clamp_zero]
  show blendPix (Pixel.mk 200 10 30 0) (Pixel.mk 50 60 70 0) 0
      ≠ (Pixel.mk 200 10 30 0).toO
  unfold blendPix Pixel.toO
  dsimp only
  rw [if_pos (by push_cast; ring)]
  simp

/-- C2 amended: `Overlay` at opacity 0 leaves every pixel whose background
alpha is nonzero (and in range) unchanged on all four channels; where the
background alpha is zero the color channels fall out of an unguarded `0/0`
(see the C2 counterexample). -/
theorem overlay_opacity_zero_id (background img : GoImage) (pos : Point) (x y : Int)
    (h1 : ((clone background).pixAt x y).a ≠ 0)
    (h2 : ((clone background).pixAt x y).a ≤ 255) :
    (Overlay background img pos 0).pixAt x y = ((clone background).pixAt x y).toO := by
  by_cases hin : inRect ((clone background).rect.intersect (pasteRect background img pos)) x y
  · rw [overlay_pixAt_blend background img pos 0 x y hin, clamp_zero]
    exact blendPix_opacity_zero _ _ h1 h2
  · exact overlay_pixAt_out background img pos 0 x y hin

/-- Witness for the amended C2 at a concrete opaque-enough background. -/
theorem overlay_opacity_zero_id_witness :
    (Overlay wbg6 wfg6 ⟨0, 0⟩ 0).pixAt 0 0 = ((clone wbg6).pixAt 0 0).toO :=
  overlay_opacity_zero_id wbg6 wfg6 ⟨0, 0⟩ 0 0 (by decide) (by decide)

/-- C6: with opacity 1 and an everywhere fully opaque overlay image, every
pixel of the overlap region gets exactly the overlay image's color channels
and alpha 255. -/
theorem overlay_opacity_one_full_alpha (background img : GoImage) (pos : Point) (x y : Int)
    (hf : ∀ u v : Int, inRect img.rect u v → (img.pixAt u v).a = 255)
    (hin : inRect ((clone background).rect.intersect (pasteRect background img pos)) x y) :
    (Overlay background img pos 1).pixAt x y =
      ⟨some (img.pixAt (x - (pasteRect background img pos).min.x + img.rect.min.x)
          (y - (pasteRect background img pos).min.y + img.rect.min.y)).r,
       some (img.pixAt (x - (pasteRect background img pos).min.x + img.rect.min.x)
          (y - (pasteRect background img pos).min.y + img.rect.min.y)).g,
       some (img.pixAt (x - (pasteRect background img pos).min.x + img.rect.min.x)
          (y - (pasteRect background img pos).min.y + img.rect.min.y)).b, 255⟩ := by
  have hpb : inRect (pasteRect background img pos) x y :=
    ((inRect_intersect_iff _ _ x y).mp hin).2
  have hs := hf _ _ (inRect_src_of_pasteRect background img pos x y hpb)
  rw [overlay_pixAt_blend background img pos 1 x y hin, clamp_one]
  exact blendPix_opacity_one _ _ hs

/-- Witness for C6 at a concrete background and fully opaque overlay. -/
theorem overlay_opacity_one_full_alpha_witness :
    (Overlay wbg6 wfg6 ⟨0, 0⟩ 1).pixAt 0 0 =
      ⟨some (wfg6.pixAt (0 - (pasteRect wbg6 wfg6 ⟨0, 0⟩).min.x + wfg6.rect.min.x)
          (0 - (pasteRect wbg6 wfg6 ⟨0, 0⟩).min.y + wfg6.rect.min.y)).r,
       some (wfg6.pixAt (0 - (pasteRect wbg6 wfg6 ⟨0, 0⟩).min.x + wfg6.rect.min.x)
          (0 - (pasteRect wbg6 wfg6 ⟨0, 0⟩).min.y + wfg6.rect.min.y)).g,
       some (wfg6.pixAt (0 - (pasteRect wbg6 wfg6 ⟨0, 0⟩).min.x + wfg6.rect.min.x)
          (0 - (pasteRect wbg6 wfg6 ⟨0, 0⟩).min.y + wfg6.rect.min.y)).b, 255⟩ :=
  overlay_opacity_one_full_alpha wbg6 wfg6 ⟨0, 0⟩ 0 0 (fun _ _ _ => rfl) (by decide)

/-- C1 evidence: at a pixel of the intersection where
`coefSum = opacity*a2/255 + (1 - opacity*a2/255)*a1/255 = 0` (here
`a1 = a2 = 0`), the code divides by `coefSum` anyway — there is no special
case — so every color channel is the NaN-derived `none`, not the claimed
defensive 0. -/
theorem overlay_coefsum_zero_nan :
    ((Overlay clearBG clearFG ⟨0, 0⟩ 1).pixAt 0 0).r = none
    ∧ ((Overlay clearBG clearFG ⟨0, 0⟩ 1).pixAt 0 0).g = none
    ∧ ((Overlay clearBG clearFG ⟨0, 0⟩ 1).pixAt 0 0).b = none := by
  rw [overlay_pixAt_blend clearBG clearFG ⟨0, 0⟩ 1 0 0 (by decide), clamp_one]
  show (blendPix (Pixel.mk 200 10 30 0) (Pixel.mk 50 60 70 0) 1).r = none
      ∧ (blendPix (Pixel.mk 200 10 30 0) (Pixel.mk 50 60 70 0) 1).g = none
      ∧ (blendPix (Pixel.mk 200 10 30 0) (Pixel.mk 50 60 70 0) 1).b = none
  unfold blendPix
  dsimp only
  rw [if_pos (by push_cast; ring)]
  exact ⟨rfl, rfl, rfl⟩

/-- The 4×4 all-red fully opaque background of the spec's concrete
scenario. -/
def redBG : GoImage := ⟨⟨⟨0, 0⟩, ⟨4, 4⟩⟩, fun _ _ => ⟨255, 0, 0, 255⟩⟩

/-- The 2×2 all-blue fully opaque overlay of the spec's concrete
scenario. -/
def blueFG : GoImage := ⟨⟨⟨0, 0⟩, ⟨2, 2⟩⟩, fun _ _ => ⟨0, 0, 255, 255⟩⟩

/-- C3: overlaying the 2×2 opaque blue image on the 4×4 opaque red image at
(1,1) with opacity 0.5 gives (127, 0, 127, 255) at pixel (1,1), and pure red
at every pixel outside the rectangle with corners (1,1) and (3,3). -/
theorem overlay_concrete_red_blue :
    (Overlay redBG blueFG ⟨1, 1⟩ (1 / 2)).pixAt 1 1 = ⟨some 127, some 0, some 127, 255⟩
    ∧ ∀ x y : Int, ¬ inRect ⟨⟨1, 1⟩, ⟨3, 3⟩⟩ x y →
        (Overlay redBG blueFG ⟨1, 1⟩ (1 / 2)).pixAt x y = (Pixel.mk 255 0 0 255).toO := by
  have hib : (clone redBG).rect.intersect (pasteRect redBG blueFG ⟨1, 1⟩)
      = ⟨⟨1, 1⟩, ⟨3, 3⟩⟩ := by decide
  constructor
  · rw [overlay_pixAt_blend redBG blueFG ⟨1, 1⟩ (1 / 2) 1 1 (by decide), clamp_half]
    show blendPix (Pixel.mk 255 0 0 255) (Pixel.mk 0 0 255 255) (1 / 2)
        = ⟨some 127, some 0, some 127, 255⟩
    unfold blendPix
    dsimp only
    have hsum : (1 - 1 / 2 * ((255 : ℕ) : ℚ) / 255) * ((255 : ℕ) : ℚ) / 255
        + 1 / 2 * ((255 : ℕ) : ℚ) / 255 = 1 := by push_cast; norm_num
    rw [hsum, if_neg one_ne_zero]
    have hc1 : (1 - 1 / 2 * ((255 : ℕ) : ℚ) / 255) * ((255 : ℕ) : ℚ) / 255
        = 1 / 2 := by push_cast; norm_num
    rw [hc1]
    have hc2 : (1 : ℚ) / 2 * ((255 : ℕ) : ℚ) / 255 = 1 / 2 := by push_cast; norm_num
    rw [hc2, div_one]
    have hr : ((255 : ℕ) : ℚ) * (1 / 2) + ((0 : ℕ) : ℚ) * (1 / 2) = 255 / 2 := by
      push_cast; norm_num
    have hg : ((0 : ℕ) : ℚ) * (1 / 2) + ((0 : ℕ) : ℚ) * (1 / 2) = 0 := by
      push_cast; norm_num
    have hb : ((0 : ℕ) : ℚ) * (1 / 2) + ((255 : ℕ) : ℚ) * (1 / 2) = 255 / 2 := by
      push_cast; norm_num
    have halpha : min (((255 : ℕ) : ℚ)
        + ((255 : ℕ) : ℚ) * (1 / 2) * (255 - ((255 : ℕ) : ℚ)) / 255) 255 = 255 := by
      push_cast; norm_num
    rw [hr, hg, hb, halpha]
    have h127 : uint8of ((255 : ℚ) / 2) = 127 := uint8of_eq (by norm_num) (by norm_num)
    have h00 : uint8of (0 : ℚ) = 0 := uint8of_eq (by norm_num) (by norm_num)
    rw [h127, h00, uint8of_255]
  · intro x y h
    rw [overlay_pixAt_out redBG blueFG ⟨1, 1⟩ (1 / 2) x y (by rw [hib]; exact h)]
    rfl

/-- Witness for C3's outside-the-overlap part at a concrete pixel. -/
theorem overlay_concrete_red_blue_witness :
    (Overlay redBG blueFG ⟨1, 1⟩ (1 / 2)).pixAt 0 3 = (Pixel.mk 255 0 0 255).toO :=
  overlay_concrete_red_blue.2 0 3 (by decide)

end Imaging
